import Mathlib

/-!
Verification of the KeeWeb remote-storage backend (Dropbox provider) and of
the Workspace tag-list maintenance, against the repository sources
src/app/scripts/storage/impl/storage-dropbox.ts and the Workspace model file.

Strings are embedded as lists of characters (JS strings are sequences of
UTF-16 code units; for the header-escaping function, where the code-unit
level is essential, lists of natural numbers are used instead).  JSON values
returned by the transport are embedded as an inductive type; JS property
access returning undefined is embedded as Option.
-/

/-- JS string model: a list of characters. -/
abbrev Str := List Char

/-- A JSON value, as delivered by the transport layer after parsing a
response body (responseType json).  Object fields are an association list;
property access on anything else yields undefined (none). -/
inductive Json where
  | str (s : Str)
  | num (n : Int)
  | bool (b : Bool)
  | null
  | arr (elems : List Json)
  | obj (fields : List (String × Json))

/-- Field lookup in a JSON object field list (first binding wins). -/
def jLookup : List (String × Json) → String → Option Json
  | [], _ => none
  | (k, v) :: rest, key => if k = key then some v else jLookup rest key

/-- JS property access `j[key]`: defined on objects, undefined (none)
elsewhere. -/
def jGet (j : Json) (key : String) : Option Json :=
  match j with
  | Json.obj fields => jLookup fields key
  | _ => none

/-- `typeof v === 'string' ? v : undefined` on an optional JSON value. -/
def asStr : Option Json → Option Str
  | some (Json.str s) => some s
  | _ => none

/-- JS strict equality of an optional JSON value against a string literal
(`v === 'lit'`): true exactly when the value is that string. -/
def jIsStr (v : Option Json) (lit : Str) : Bool :=
  match v with
  | some (Json.str s) => s = lit
  | _ => false

/-- The distinct failure outcomes thrown by the Dropbox backend.  Each
constructor corresponds to one throw site in storage-dropbox.ts; the
generic `throw new Error('API error, status code ' + status)` of apiCall is
`apiError status` (the message carries nothing but the status). -/
inductive StorageError where
  | fileNotFound
  | apiError (status : Int)
  | tagNotFound
  | badTag (tag : Str)
  | badKey
  | emptyResponse
deriving DecidableEq

/-- StorageFileStat from storage/types: `{ rev?: string, folder?: boolean }`. -/
structure StorageFileStat where
  rev : Option Str := none
  folder : Option Bool := none
deriving DecidableEq

/-- StorageSaveResult from storage/types: `{ rev?: string }`. -/
structure StorageSaveResult where
  rev : Option Str := none
deriving DecidableEq

/-- StorageListItem from storage/types. -/
structure StorageListItem where
  name : Str
  path : Str
  rev : Option Str := none
  dir : Bool
deriving DecidableEq

/-- The error value caught by apiCall's catch clause: the thrown object's
properties (`errData` is read as a record) together with the HTTP status
when the throw was an HttpRequestError (`e instanceof HttpRequestError`),
none for a transport-level failure. -/
structure CaughtError where
  fields : List (String × Json)
  httpStatus : Option Int

namespace StorageDropbox

/-- The catch clause of StorageDropbox.apiCall (storage-dropbox.ts lines
295-307): if the thrown error has a truthy object-typed `path` property
whose `.tag` is the string `not_found`, a StorageFileNotFoundError is
thrown; otherwise a generic error carrying the HTTP status (0 when the
error is not an HttpRequestError).  A JSON array as `path` is also
object-typed in JS but its `.tag` access yields undefined, so it falls to
the generic branch, as does null (falsy). -/
def apiCallErr (e : CaughtError) : StorageError :=
  let status := e.httpStatus.getD 0
  match jLookup e.fields "path" with
  | some (Json.obj p) =>
      if jIsStr (jLookup p ".tag") "not_found".toList then
        StorageError.fileNotFound
      else
        StorageError.apiError status
  | _ => StorageError.apiError status

/-- StorageDropbox.stat response handling (lines 348-374): the `.tag`
discriminator must be a string; `file` yields `{rev}` when `rev` is a
string and `{}` otherwise, `folder` yields `{folder: true}`, anything else
throws. -/
def statOfResponse (data : Json) : Except StorageError StorageFileStat :=
  match jGet data ".tag" with
  | some (Json.str tag) =>
      if tag = "file".toList then
        match jGet data "rev" with
        | some (Json.str rev) => Except.ok { rev := some rev }
        | _ => Except.ok {}
      else if tag = "folder".toList then
        Except.ok { folder := some true }
      else
        Except.error (StorageError.badTag tag)
  | _ => Except.error StorageError.tagNotFound

/-- The upload mode built by StorageDropbox.save (line 388):
`rev ? { '.tag': 'update', update: rev } : { '.tag': 'overwrite' }`. -/
def saveMode (rev : Option Str) : Json :=
  match rev with
  | some r => Json.obj [(".tag", Json.str "update".toList), ("update", Json.str r)]
  | none => Json.obj [(".tag", Json.str "overwrite".toList)]

/-- The Dropbox-API-Arg object passed by save to files/upload, given the
already-resolved full path. -/
def saveApiArg (fullPath : Str) (rev : Option Str) : Json :=
  Json.obj [("path", Json.str fullPath), ("mode", saveMode rev)]

/-- StorageDropbox.save response handling (lines 398-402): the returned
revision is the response's `rev` field when it is a string. -/
def saveResultOfResponse (data : Json) : StorageSaveResult :=
  { rev := asStr (jGet data "rev") }

end StorageDropbox

/-- Helper: an error carrying a path object tagged not_found is mapped to
FileNotFound by apiCall's catch clause, whatever the status. -/
theorem apiCallErr_notFound (e : CaughtError) (p : List (String × Json))
    (hp : jLookup e.fields "path" = some (Json.obj p))
    (htag : jLookup p ".tag" = some (Json.str "not_found".toList)) :
    StorageDropbox.apiCallErr e = StorageError.fileNotFound := by
  simp [StorageDropbox.apiCallErr, hp, htag, jIsStr]

/-- Helper: any caught error without a not_found path discriminator, thrown
as an HttpRequestError with status s, is mapped to the generic API error
carrying s. -/
theorem apiCallErr_generic (e : CaughtError) (s : Int)
    (hno : ∀ q, jLookup e.fields "path" = some (Json.obj q) →
      jLookup q ".tag" ≠ some (Json.str "not_found".toList))
    (hs : e.httpStatus = some s) :
    StorageDropbox.apiCallErr e = StorageError.apiError s := by
  rcases hpath : jLookup e.fields "path" with _ | j
  · simp [StorageDropbox.apiCallErr, hpath, hs]
  · cases j with
    | obj q =>
        have hne := hno q hpath
        have hfalse : jIsStr (jLookup q ".tag") "not_found".toList = false := by
          rcases ht : jLookup q ".tag" with _ | jt
          · simp [jIsStr]
          · cases jt with
            | str t =>
                simp only [jIsStr, decide_eq_false_iff_not]
                intro hEq
                exact hne (by rw [ht, hEq])
            | num n => simp [jIsStr]
            | bool b => simp [jIsStr]
            | null => simp [jIsStr]
            | arr a => simp [jIsStr]
            | obj f => simp [jIsStr]
        simp only [String.toList] at hfalse
        simp [StorageDropbox.apiCallErr, hpath, hfalse, hs]
    | str t => simp [StorageDropbox.apiCallErr, hpath, hs]
    | num n => simp [StorageDropbox.apiCallErr, hpath, hs]
    | bool b => simp [StorageDropbox.apiCallErr, hpath, hs]
    | null => simp [StorageDropbox.apiCallErr, hpath, hs]
    | arr a => simp [StorageDropbox.apiCallErr, hpath, hs]

/-- C2: a failed API call whose error carries a path object tagged
not_found surfaces as FileNotFound regardless of HTTP status; any other
failure that is an HttpRequestError with status s surfaces as the generic
API error carrying s. -/
theorem apiCall_error_classification (e : CaughtError) (p : List (String × Json)) (s : Int) :
    (jLookup e.fields "path" = some (Json.obj p) →
      jLookup p ".tag" = some (Json.str "not_found".toList) →
      StorageDropbox.apiCallErr e = StorageError.fileNotFound)
    ∧ ((∀ q, jLookup e.fields "path" = some (Json.obj q) →
          jLookup q ".tag" ≠ some (Json.str "not_found".toList)) →
        e.httpStatus = some s →
        StorageDropbox.apiCallErr e = StorageError.apiError s) :=
  ⟨fun hp htag => apiCallErr_notFound e p hp htag,
   fun hno hs => apiCallErr_generic e s hno hs⟩

/-- Witness for C2 at a concrete not-found error (status 409) and a
concrete unrelated error (status 500). -/
theorem apiCall_error_classification_witness :
    StorageDropbox.apiCallErr
        ⟨[("path", Json.obj [(".tag", Json.str "not_found".toList)])], some 409⟩ =
      StorageError.fileNotFound
    ∧ StorageDropbox.apiCallErr ⟨[("reason", Json.str "other".toList)], some 500⟩ =
      StorageError.apiError 500 := by
  constructor
  · exact (apiCall_error_classification
        ⟨[("path", Json.obj [(".tag", Json.str "not_found".toList)])], some 409⟩
        [(".tag", Json.str "not_found".toList)] 409).1 rfl rfl
  · exact (apiCall_error_classification
        ⟨[("reason", Json.str "other".toList)], some 500⟩ [] 500).2
      (by intro q hq; simp [jLookup] at hq) rfl

/-- C5: stat's handling of the metadata discriminator: tag `file` yields a
rev-shaped stat (rev present exactly when the response rev is a string),
tag `folder` yields `{folder: true}`, any other string tag fails with the
bad-tag protocol error, and a missing or non-string tag fails with the
tag-not-found protocol error. -/
theorem stat_discriminator (data : Json) :
    (jGet data ".tag" = some (Json.str "file".toList) →
      StorageDropbox.statOfResponse data =
        Except.ok { rev := asStr (jGet data "rev"), folder := none })
    ∧ (jGet data ".tag" = some (Json.str "folder".toList) →
        StorageDropbox.statOfResponse data = Except.ok { rev := none, folder := some true })
    ∧ (∀ tag, jGet data ".tag" = some (Json.str tag) → tag ≠ "file".toList →
        tag ≠ "folder".toList →
        StorageDropbox.statOfResponse data = Except.error (StorageError.badTag tag))
    ∧ ((∀ tag, jGet data ".tag" ≠ some (Json.str tag)) →
        StorageDropbox.statOfResponse data = Except.error StorageError.tagNotFound) := by
  refine ⟨?_, ?_, ?_, ?_⟩
  · intro h
    rcases hrev : jGet data "rev" with _ | j
    · simp [StorageDropbox.statOfResponse, h, hrev, asStr]
    · cases j <;> simp [StorageDropbox.statOfResponse, h, hrev, asStr]
  · intro h
    simp [StorageDropbox.statOfResponse, h]
  · intro tag h hf hd
    simp only [String.toList] at hf hd
    simp [StorageDropbox.statOfResponse, h, hf, hd]
  · intro h
    rcases htag : jGet data ".tag" with _ | j
    · simp [StorageDropbox.statOfResponse, htag]
    · cases j with
      | str s => exact absurd htag (h s)
      | num n => simp [StorageDropbox.statOfResponse, htag]
      | bool b => simp [StorageDropbox.statOfResponse, htag]
      | null => simp [StorageDropbox.statOfResponse, htag]
      | arr a => simp [StorageDropbox.statOfResponse, htag]
      | obj f => simp [StorageDropbox.statOfResponse, htag]

/-- Witness for C5 at a concrete file response, folder response, bad tag
and missing tag. -/
theorem stat_discriminator_witness :
    StorageDropbox.statOfResponse
        (Json.obj [(".tag", Json.str "file".toList), ("rev", Json.str "r1".toList)]) =
      Except.ok { rev := some "r1".toList, folder := none }
    ∧ StorageDropbox.statOfResponse (Json.obj [(".tag", Json.str "folder".toList)]) =
      Except.ok { rev := none, folder := some true }
    ∧ StorageDropbox.statOfResponse (Json.obj [(".tag", Json.str "deleted".toList)]) =
      Except.error (StorageError.badTag "deleted".toList)
    ∧ StorageDropbox.statOfResponse (Json.obj [("rev", Json.str "r1".toList)]) =
      Except.error StorageError.tagNotFound := by
  refine ⟨?_, ?_, ?_, ?_⟩
  · exact (stat_discriminator
        (Json.obj [(".tag", Json.str "file".toList), ("rev", Json.str "r1".toList)])).1 rfl
  · exact (stat_discriminator (Json.obj [(".tag", Json.str "folder".toList)])).2.1 rfl
  · exact (stat_discriminator (Json.obj [(".tag", Json.str "deleted".toList)])).2.2.1
      "deleted".toList rfl (by decide) (by decide)
  · exact (stat_discriminator (Json.obj [("rev", Json.str "r1".toList)])).2.2.2
      (by intro tag h; simp [jGet, jLookup] at h)

/-- C9: every stat result has a mutually exclusive shape: either the folder
flag is set and no revision is carried, or the folder flag is absent. -/
theorem stat_shape_exclusive (data : Json) (s : StorageFileStat)
    (h : StorageDropbox.statOfResponse data = Except.ok s) :
    (s.folder = some true ∧ s.rev = none) ∨ s.folder = none := by
  rcases htag : jGet data ".tag" with _ | j
  · simp [StorageDropbox.statOfResponse, htag] at h
  · cases j with
    | str tag =>
        by_cases hf : tag = "file".toList
        · rcases hrev : jGet data "rev" with _ | jr
          · simp [StorageDropbox.statOfResponse, htag, hrev, hf] at h
            right
            rw [← h]
          · cases jr <;>
              · simp [StorageDropbox.statOfResponse, htag, hrev, hf] at h
                right
                rw [← h]
        · by_cases hd : tag = "folder".toList
          · simp [StorageDropbox.statOfResponse, htag, hf, hd] at h
            left
            rw [← h]
            exact ⟨rfl, rfl⟩
          · simp only [String.toList] at hf hd
            simp [StorageDropbox.statOfResponse, htag, hf, hd] at h
    | num n => simp [StorageDropbox.statOfResponse, htag] at h
    | bool b => simp [StorageDropbox.statOfResponse, htag] at h
    | null => simp [StorageDropbox.statOfResponse, htag] at h
    | arr a => simp [StorageDropbox.statOfResponse, htag] at h
    | obj f => simp [StorageDropbox.statOfResponse, htag] at h

/-- Witness for C9 at a concrete folder response. -/
theorem stat_shape_exclusive_witness :
    (({ rev := none, folder := some true } : StorageFileStat).folder = some true ∧
        ({ rev := none, folder := some true } : StorageFileStat).rev = none) ∨
      ({ rev := none, folder := some true } : StorageFileStat).folder = none :=
  stat_shape_exclusive (Json.obj [(".tag", Json.str "folder".toList)])
    { rev := none, folder := some true } rfl

/-- C1 counterexample: a Dropbox revision-conflict rejection of files/upload
(HTTP 409, error object tagged path with a conflict reason) is mapped by
apiCall's catch clause to exactly the same error value as an unrelated 409
failure (insufficient_space): the generic API error carrying the status.
No distinguishable Conflict error class exists in the code. -/
theorem save_conflict_not_distinguishable :
    StorageDropbox.apiCallErr
        ⟨[(".tag", Json.str "path".toList),
          ("reason", Json.obj [(".tag", Json.str "conflict".toList)])], some 409⟩ =
      StorageDropbox.apiCallErr
        ⟨[(".tag", Json.str "path".toList),
          ("reason", Json.obj [(".tag", Json.str "insufficient_space".toList)])], some 409⟩
    ∧ StorageDropbox.apiCallErr
        ⟨[(".tag", Json.str "path".toList),
          ("reason", Json.obj [(".tag", Json.str "conflict".toList)])], some 409⟩ =
      StorageError.apiError 409 :=
  ⟨rfl, rfl⟩

/-- C1 (amended): save with a revision requests the conditional update mode
carrying the revision and save without one requests the unconditional
overwrite mode; a server rejection (including a revision mismatch) that is
not a not_found error surfaces as the generic API error carrying the HTTP
status, not as a dedicated Conflict error; a successful response yields the
response's rev field when it is a string. -/
theorem save_request_and_result (fullPath r : Str) (resp : Json) (e : CaughtError) (s : Int) :
    StorageDropbox.saveApiArg fullPath (some r) =
      Json.obj [("path", Json.str fullPath),
        ("mode", Json.obj [(".tag", Json.str "update".toList), ("update", Json.str r)])]
    ∧ StorageDropbox.saveApiArg fullPath none =
      Json.obj [("path", Json.str fullPath),
        ("mode", Json.obj [(".tag", Json.str "overwrite".toList)])]
    ∧ (jGet resp "rev" = some (Json.str r) →
        StorageDropbox.saveResultOfResponse resp = { rev := some r })
    ∧ ((∀ q, jLookup e.fields "path" = some (Json.obj q) →
          jLookup q ".tag" ≠ some (Json.str "not_found".toList)) →
        e.httpStatus = some s →
        StorageDropbox.apiCallErr e = StorageError.apiError s) := by
  refine ⟨rfl, rfl, ?_, fun hno hs => apiCallErr_generic e s hno hs⟩
  intro h
  simp [StorageDropbox.saveResultOfResponse, h, asStr]

/-- Witness for C1 (amended) at a concrete path, revision, upload response
and conflict rejection. -/
theorem save_request_and_result_witness :
    StorageDropbox.saveApiArg "/Vault/db.kdbx".toList (some "abc".toList) =
      Json.obj [("path", Json.str "/Vault/db.kdbx".toList),
        ("mode", Json.obj [(".tag", Json.str "update".toList), ("update", Json.str "abc".toList)])]
    ∧ StorageDropbox.saveResultOfResponse (Json.obj [("rev", Json.str "abc".toList)]) =
      { rev := some "abc".toList }
    ∧ StorageDropbox.apiCallErr
        ⟨[("reason", Json.obj [(".tag", Json.str "conflict".toList)])], some 409⟩ =
      StorageError.apiError 409 := by
  have h := save_request_and_result "/Vault/db.kdbx".toList "abc".toList
    (Json.obj [("rev", Json.str "abc".toList)])
    ⟨[("reason", Json.obj [(".tag", Json.str "conflict".toList)])], some 409⟩ 409
  exact ⟨h.1, h.2.2.1 rfl, h.2.2.2 (by intro q hq; simp [jLookup] at hq) rfl⟩

/-- Helper for fixSlashes: prev is the character already emitted; a slash
following an emitted slash is dropped. -/
def fixSlashesGo : Char → Str → Str
  | _, [] => []
  | prev, c :: rest =>
      if prev = '/' ∧ c = '/' then fixSlashesGo prev rest
      else c :: fixSlashesGo c rest

/-- Modelled from the spec: UrlFormat.fixSlashes (util/formatting/url-format
is not part of the reviewed sources).  Canonical slash normalization: every
run of consecutive slashes collapses to a single slash. -/
def fixSlashes : Str → Str
  | [] => []
  | c :: rest => c :: fixSlashesGo c rest

/-- JS String.prototype.toLowerCase, per character. -/
def strToLower (s : Str) : Str :=
  s.map Char.toLower

/-- First index at which sub occurs in hay (JS String.indexOf, found case). -/
def indexOfPos : Str → Str → Option Nat
  | [], sub => if sub.isPrefixOf [] then some 0 else none
  | a :: t, sub =>
      if sub.isPrefixOf (a :: t) then some 0
      else (indexOfPos t sub).map (fun n => n + 1)

/-- JS String.prototype.indexOf: first occurrence index, or -1. -/
def jsIndexOf (hay sub : Str) : Int :=
  match indexOfPos hay sub with
  | some n => (n : Int)
  | none => -1

namespace StorageDropbox

/-- StorageDropbox.toFullPath (lines 45-51): with a configured root folder,
rebase the logical path as '/' + rootFolder + '/' + path and normalize
slashes; with no root folder the path is returned unchanged. -/
def toFullPath (rootFolder path : Str) : Str :=
  if rootFolder = [] then path
  else fixSlashes ('/' :: (rootFolder ++ '/' :: path))

/-- StorageDropbox.toRelPath (lines 53-65): with a configured root folder,
find the case-insensitive position of the root folder in the backend path;
if it occurs at index 0 strip rootFolder.length characters, if at index 1
strip rootFolder.length + 1; then prepend '/' and normalize slashes. -/
def toRelPath (rootFolder path : Str) : Str :=
  if rootFolder = [] then path
  else
    let ix := jsIndexOf (strToLower path) (strToLower rootFolder)
    let path1 :=
      if ix = 0 then path.drop rootFolder.length
      else if ix = 1 then path.drop (rootFolder.length + 1)
      else path
    fixSlashes ('/' :: path1)

end StorageDropbox

/-- JS whitespace recognized by String.prototype.trim (ASCII part; the
exotic Unicode space characters play no role in these claims). -/
def isJsSpace (c : Char) : Bool :=
  c = ' ' ∨ c = '\t' ∨ c = '\n' ∨ c = '\r' ∨ c = '\x0b' ∨ c = '\x0c'

/-- JS String.prototype.trim: strip leading and trailing whitespace. -/
def jsTrim (s : Str) : Str :=
  ((s.dropWhile isJsSpace).reverse.dropWhile isJsSpace).reverse

namespace StorageDropbox

/-- StorageDropbox.fixConfigFolder (lines 67-73): convert backslashes to
slashes, trim whitespace, then strip one leading slash. -/
def fixConfigFolder (folder : Str) : Str :=
  let f := jsTrim (folder.map fun c => if c = '\\' then '/' else c)
  if f.head? = some '/' then f.drop 1 else f

/-- The body of the entry loop of StorageDropbox.list (lines 436-454): an
entry whose name or path_display is not a string, or whose rev is present
but not a string, is skipped (none); otherwise a StorageListItem is built,
with dir true exactly when the entry's .tag is not the string `file`. -/
def listEntryItem (rootFolder : Str) (ent : Json) : Option StorageListItem :=
  match jGet ent "name", jGet ent "path_display" with
  | some (Json.str name), some (Json.str pathDisplay) =>
      match jGet ent "rev" with
      | none =>
          some { name := name, path := toRelPath rootFolder pathDisplay, rev := none,
                 dir := !(jIsStr (jGet ent ".tag") "file".toList) }
      | some (Json.str rev) =>
          some { name := name, path := toRelPath rootFolder pathDisplay, rev := some rev,
                 dir := !(jIsStr (jGet ent ".tag") "file".toList) }
      | some _ => none
  | _, _ => none

/-- StorageDropbox.list response handling (lines 427-455): the response's
entries field must be an array, else the listing fails; each entry is
deserialized by listEntryItem, malformed entries being skipped. -/
def listOfResponse (rootFolder : Str) (data : Json) :
    Except StorageError (List StorageListItem) :=
  match jGet data "entries" with
  | some (Json.arr entries) => Except.ok (entries.filterMap (listEntryItem rootFolder))
  | _ => Except.error StorageError.emptyResponse

end StorageDropbox

/-- An entry with all fields list requires: a string name, a string
path_display, and a rev that is absent or a string. -/
def WellFormedEntry (e : Json) : Prop :=
  (∃ s, jGet e "name" = some (Json.str s)) ∧
  (∃ s, jGet e "path_display" = some (Json.str s)) ∧
  (jGet e "rev" = none ∨ ∃ s, jGet e "rev" = some (Json.str s))

/-- Helper: an entry that produces a list item is well-formed. -/
theorem wellFormed_of_listEntryItem (rootFolder : Str) (ent : Json)
    (it : StorageListItem) (h : StorageDropbox.listEntryItem rootFolder ent = some it) :
    WellFormedEntry ent := by
  unfold StorageDropbox.listEntryItem at h
  rcases hn : jGet ent "name" with _ | jn
  · rw [hn] at h
    simp at h
  · rcases hp : jGet ent "path_display" with _ | jp
    · rw [hn, hp] at h
      cases jn <;> simp at h
    · rw [hn, hp] at h
      cases jn with
      | str n =>
          cases jp with
          | str p =>
              rcases hr : jGet ent "rev" with _ | jr
              · exact ⟨⟨n, hn⟩, ⟨p, hp⟩, Or.inl hr⟩
              · rw [hr] at h
                cases jr with
                | str r => exact ⟨⟨n, hn⟩, ⟨p, hp⟩, Or.inr ⟨r, hr⟩⟩
                | num m => simp at h
                | bool b => simp at h
                | null => simp at h
                | arr a => simp at h
                | obj f => simp at h
          | num m => simp at h
          | bool b => simp at h
          | null => simp at h
          | arr a => simp at h
          | obj f => simp at h
      | num m => cases jp <;> simp at h
      | bool b => cases jp <;> simp at h
      | null => cases jp <;> simp at h
      | arr a => cases jp <;> simp at h
      | obj f => cases jp <;> simp at h

/-- Helper: a malformed entry is skipped. -/
theorem listEntryItem_of_malformed (rootFolder : Str) (ent : Json)
    (h : ¬ WellFormedEntry ent) :
    StorageDropbox.listEntryItem rootFolder ent = none := by
  rcases hit : StorageDropbox.listEntryItem rootFolder ent with _ | it
  · rfl
  · exact absurd (wellFormed_of_listEntryItem rootFolder ent it hit) h

/-- Helper: a well-formed entry produces exactly the expected item. -/
theorem listEntryItem_of_wellFormed (rootFolder : Str) (ent : Json)
    (h : WellFormedEntry ent) :
    StorageDropbox.listEntryItem rootFolder ent =
      some { name := (asStr (jGet ent "name")).getD [],
             path := StorageDropbox.toRelPath rootFolder
               ((asStr (jGet ent "path_display")).getD []),
             rev := asStr (jGet ent "rev"),
             dir := !(jIsStr (jGet ent ".tag") "file".toList) } := by
  obtain ⟨⟨n, hn⟩, ⟨p, hp⟩, hr⟩ := h
  rcases hr with hr | ⟨r, hr⟩ <;>
    simp [StorageDropbox.listEntryItem, hn, hp, hr, asStr]

/-- C4: a list response holding one well-formed entry and one entry missing
a required field yields exactly one StorageListItem, in either order: the
malformed entry is skipped without aborting the listing; and the produced
item's dir flag is true exactly when the well-formed entry's .tag is not
the string `file`. -/
theorem list_skips_malformed (rootFolder : Str) (e1 e2 : Json)
    (h1 : WellFormedEntry e1) (h2 : ¬ WellFormedEntry e2) :
    ∃ item : StorageListItem,
      StorageDropbox.listOfResponse rootFolder
          (Json.obj [("entries", Json.arr [e1, e2])]) = Except.ok [item]
      ∧ StorageDropbox.listOfResponse rootFolder
          (Json.obj [("entries", Json.arr [e2, e1])]) = Except.ok [item]
      ∧ (item.dir = true ↔ jGet e1 ".tag" ≠ some (Json.str "file".toList)) := by
  have hw := listEntryItem_of_wellFormed rootFolder e1 h1
  have hm := listEntryItem_of_malformed rootFolder e2 h2
  refine ⟨{ name := (asStr (jGet e1 "name")).getD [],
            path := StorageDropbox.toRelPath rootFolder
              ((asStr (jGet e1 "path_display")).getD []),
            rev := asStr (jGet e1 "rev"),
            dir := !(jIsStr (jGet e1 ".tag") "file".toList) }, ?_, ?_, ?_⟩
  · simp [StorageDropbox.listOfResponse, jGet, jLookup, List.filterMap, hw, hm]
  · simp [StorageDropbox.listOfResponse, jGet, jLookup, List.filterMap, hw, hm]
  · simp only [Bool.not_eq_true']
    rcases ht : jGet e1 ".tag" with _ | jt
    · simp [jIsStr]
    · cases jt with
      | str t =>
          by_cases hft : t = "file".toList
        
          · subst hft
            simp [jIsStr]
          · simp [jIsStr, hft]
      | num m => simp [jIsStr]
      | bool b => simp [jIsStr]
      | null => simp [jIsStr]
      | arr a => simp [jIsStr]
      | obj f => simp [jIsStr]

/-- Witness for C4: a well-formed file entry plus an entry lacking a name,
with root folder Vault. -/
theorem list_skips_malformed_witness :
    ∃ item : StorageListItem,
      StorageDropbox.listOfResponse "Vault".toList
          (Json.obj [("entries", Json.arr
            [Json.obj [("name", Json.str "db.kdbx".toList),
               ("path_display", Json.str "/Vault/db.kdbx".toList),
               ("rev", Json.str "r1".toList), (".tag", Json.str "file".toList)],
             Json.obj [("path_display", Json.str "/Vault/ghost".toList)]])]) =
        Except.ok [item]
      ∧ StorageDropbox.listOfResponse "Vault".toList
          (Json.obj [("entries", Json.arr
            [Json.obj [("path_display", Json.str "/Vault/ghost".toList)],
             Json.obj [("name", Json.str "db.kdbx".toList),
               ("path_display", Json.str "/Vault/db.kdbx".toList),
               ("rev", Json.str "r1".toList), (".tag", Json.str "file".toList)]])]) =
        Except.ok [item]
      ∧ (item.dir = true ↔
          jGet (Json.obj [("name", Json.str "db.kdbx".toList),
              ("path_display", Json.str "/Vault/db.kdbx".toList),
              ("rev", Json.str "r1".toList), (".tag", Json.str "file".toList)]) ".tag" ≠
            some (Json.str "file".toList)) := by
  apply list_skips_malformed
  · exact ⟨⟨_, rfl⟩, ⟨_, rfl⟩, Or.inr ⟨_, rfl⟩⟩
  · intro h
    obtain ⟨⟨s, hs⟩, _, _⟩ := h
    simp [jGet, jLookup] at hs

/-- Modelled from the spec: the two built-in Dropbox application
registrations of const/cloud-storage-apps (not under src/); their id and
secret values are opaque tokens, only identity comparisons matter. -/
structure DropboxApp where
  id : Str
  appSecret : Str

/-- Modelled from the spec: the built-in app-folder registration. -/
def dropboxAppFolder : DropboxApp :=
  { id := "builtin-app-folder-key".toList, appSecret := "builtin-app-folder-val".toList }

/-- Modelled from the spec: the built-in full-Dropbox registration. -/
def dropboxFullDropbox : DropboxApp :=
  { id := "builtin-full-dropbox-key".toList, appSecret := "builtin-full-dropbox-val".toList }

/-- Modelled from the spec: the Dropbox-related slice of the application
settings collaborator (models/app-settings, not under src/): three nullable
string settings.  AppSettings.batchSet applies several field writes as one
atomic update, which the pure model renders as producing one new record. -/
structure AppSettingsState where
  dropboxAppKey : Option Str
  dropboxSecret : Option Str
  dropboxFolder : Option Str
deriving DecidableEq

/-- The config record passed to applyConfig
(`Record<string, string | null>`, none is null/absent). -/
structure StorageConfig where
  key : Option Str
  secret : Option Str
  folder : Option Str

namespace StorageDropbox

/-- StorageDropbox.applyConfig (lines 208-222): a key equal to either
built-in application id throws 'Bad key' before anything is written; a
truthy folder is sanitized by fixConfigFolder; key, secret and folder are
then persisted in one AppSettings.batchSet. -/
def applyConfig (config : StorageConfig) (s : AppSettingsState) :
    Except StorageError AppSettingsState :=
  if config.key = some dropboxAppFolder.id ∨ config.key = some dropboxFullDropbox.id then
    Except.error StorageError.badKey
  else
    let folder :=
      match config.folder with
      | some f => if f ≠ [] then some (fixConfigFolder f) else some f
      | none => none
    Except.ok { s with
      dropboxAppKey := config.key
      dropboxSecret := config.secret
      dropboxFolder := folder }

/-- Modelled from the spec: the locale string interpolated by the `custom`
branch of applySetting (`(${Locale.dropboxAppKeyHint})`); its contents are
an opaque human-facing hint. -/
def dropboxAppKeyHintParen : Str :=
  "(dropbox app key hint)".toList

/-- StorageDropbox.applySetting (lines 224-254), returning the updated
settings and whether logout() was invoked (its promise rejection is
swallowed with catch(noop), which the flag abstracts): link changes and
key/secret changes log out, folder changes do not, an unrecognized link
value returns without any change. -/
def applySetting (key value : Str) (s : AppSettingsState) : AppSettingsState × Bool :=
  if key = "link".toList then
    if value = "app".toList then
      ({ s with dropboxAppKey := some dropboxAppFolder.id }, true)
    else if value = "full".toList then
      ({ s with dropboxAppKey := some dropboxFullDropbox.id }, true)
    else if value = "custom".toList then
      ({ s with dropboxAppKey := some dropboxAppKeyHintParen }, true)
    else (s, false)
  else if key = "key".toList then
    ({ s with dropboxAppKey := some value }, true)
  else if key = "secret".toList then
    ({ s with dropboxSecret := some value }, true)
  else if key = "folder".toList then
    ({ s with dropboxFolder := some (fixConfigFolder value) }, false)
  else (s, false)

end StorageDropbox

/-- Helper: sanitizing the empty folder string is the identity, so the
truthiness guard of applyConfig collapses to mapping fixConfigFolder over
the optional folder. -/
theorem fixConfigFolder_nil : StorageDropbox.fixConfigFolder [] = [] := rfl

/-- C7: applyConfig with a key equal to either built-in application id
fails with the configuration error, issuing no settings write (the state is
not consulted or changed); any other config is persisted in one atomic
batch, with the folder sanitized by fixConfigFolder (backslashes to
slashes, trimmed, one leading slash stripped). -/
theorem applyConfig_rejects_builtin (config : StorageConfig) (s : AppSettingsState) :
    (config.key = some dropboxAppFolder.id ∨ config.key = some dropboxFullDropbox.id →
      StorageDropbox.applyConfig config s = Except.error StorageError.badKey)
    ∧ (config.key ≠ some dropboxAppFolder.id → config.key ≠ some dropboxFullDropbox.id →
        StorageDropbox.applyConfig config s =
          Except.ok { dropboxAppKey := config.key,
                      dropboxSecret := config.secret,
                      dropboxFolder := config.folder.map StorageDropbox.fixConfigFolder }) := by
  constructor
  · intro h
    simp [StorageDropbox.applyConfig, h]
  · intro h1 h2
    simp only [StorageDropbox.applyConfig, h1, h2, or_self, if_neg, false_or]
    rcases hf : config.folder with _ | f
    · simp
    · by_cases hnil : f = []
      · subst hnil
        simp [fixConfigFolder_nil]
      · simp [hnil]

/-- Witness for C7: the built-in key is rejected; a custom config with a
messy folder is persisted sanitized. -/
theorem applyConfig_rejects_builtin_witness :
    StorageDropbox.applyConfig
        ⟨some dropboxAppFolder.id, some "s".toList, none⟩
        ⟨none, none, none⟩ = Except.error StorageError.badKey
    ∧ StorageDropbox.applyConfig
        ⟨some "mykey".toList, some "s".toList, some " /My\\Vault ".toList⟩
        ⟨none, none, none⟩ =
      Except.ok { dropboxAppKey := some "mykey".toList,
                  dropboxSecret := some "s".toList,
                  dropboxFolder := some "My/Vault".toList } := by
  constructor
  · exact (applyConfig_rejects_builtin
      ⟨some dropboxAppFolder.id, some "s".toList, none⟩ ⟨none, none, none⟩).1 (Or.inl rfl)
  · have h := (applyConfig_rejects_builtin
      ⟨some "mykey".toList, some "s".toList, some " /My\\Vault ".toList⟩
      ⟨none, none, none⟩).2 (by decide) (by decide)
    rw [h]
    rfl

/-- C8: applySetting with key `link` and a recognized value (app, full,
custom) stores the corresponding application key and triggers the implicit
logout (whose errors are swallowed); keys `key` and `secret` store the
value and also log out; key `folder` stores the sanitized folder and does
not log out; an unrecognized link value changes nothing and does not log
out. -/
theorem applySetting_cases (value : Str) (s : AppSettingsState) :
    StorageDropbox.applySetting "link".toList "app".toList s =
      ({ s with dropboxAppKey := some dropboxAppFolder.id }, true)
    ∧ StorageDropbox.applySetting "link".toList "full".toList s =
      ({ s with dropboxAppKey := some dropboxFullDropbox.id }, true)
    ∧ StorageDropbox.applySetting "link".toList "custom".toList s =
      ({ s with dropboxAppKey := some StorageDropbox.dropboxAppKeyHintParen }, true)
    ∧ (value ≠ "app".toList → value ≠ "full".toList → value ≠ "custom".toList →
        StorageDropbox.applySetting "link".toList value s = (s, false))
    ∧ StorageDropbox.applySetting "key".toList value s =
      ({ s with dropboxAppKey := some value }, true)
    ∧ StorageDropbox.applySetting "secret".toList value s =
      ({ s with dropboxSecret := some value }, true)
    ∧ StorageDropbox.applySetting "folder".toList value s =
      ({ s with dropboxFolder := some (StorageDropbox.fixConfigFolder value) }, false) := by
  refine ⟨rfl, rfl, rfl, ?_, rfl, rfl, rfl⟩
  intro h1 h2 h3
  simp only [String.toList] at h1 h2 h3
  simp [StorageDropbox.applySetting, h1, h2, h3]

/-- Witness for C8 at concrete values: an unrecognized link value leaves
the settings untouched without logout, and a folder update stores the
sanitized value without logout. -/
theorem applySetting_cases_witness :
    StorageDropbox.applySetting "link".toList "other".toList ⟨none, none, none⟩ =
      (⟨none, none, none⟩, false)
    ∧ StorageDropbox.applySetting "folder".toList "\\a\\b ".toList ⟨none, none, none⟩ =
      (⟨none, none, some "a/b".toList⟩, false) := by
  have h := applySetting_cases "other".toList (⟨none, none, none⟩ : AppSettingsState)
  have h2 := applySetting_cases "\\a\\b ".toList (⟨none, none, none⟩ : AppSettingsState)
  refine ⟨h.2.2.2.1 (by decide) (by decide) (by decide), ?_⟩
  rw [h2.2.2.2.2.2.2]
  rfl

/-- One lowercase hex digit as a UTF-16 code unit (JS Number.toString(16)
digit alphabet: 0-9 then a-f). -/
def toHexDigitUnit (n : Nat) : Nat :=
  if n < 10 then 48 + n else 87 + n

/-- Fuel-driven accumulator loop computing the lowercase hex digits of n
(most significant first), appended before acc. -/
def hexUnitsCore : Nat → Nat → List Nat → List Nat
  | 0, _, acc => acc
  | fuel + 1, n, acc =>
      if n < 16 then toHexDigitUnit n :: acc
      else hexUnitsCore fuel (n / 16) (toHexDigitUnit (n % 16) :: acc)

/-- JS `n.toString(16)` for a natural number, as code units: minimal-length
lowercase hex digits. -/
def hexUnits (n : Nat) : List Nat :=
  hexUnitsCore (n + 1) n []

/-- Recursive characterization of the hex digits, used for proofs. -/
def hexUnitsRec (n : Nat) : List Nat :=
  if n < 16 then [toHexDigitUnit n]
  else hexUnitsRec (n / 16) ++ [toHexDigitUnit (n % 16)]
termination_by n
decreasing_by
  exact Nat.div_lt_self (by omega) (by omega)

namespace StorageDropbox

/-- StorageDropbox.encodeJsonHttpHeader (lines 260-265), at the UTF-16
code-unit level at which JS regexes and charCodeAt operate: every code unit
in the range 007f-ffff is replaced by a backslash-u escape of exactly four
lowercase hex digits, built as ('000' + hex).slice(-4); 92 and 117 are the
code units of the backslash and of u. -/
def escapeUnit (c : Nat) : List Nat :=
  let s := [48, 48, 48] ++ hexUnits c
  [92, 117] ++ s.drop (s.length - 4)

/-- The whole encoding: code units below 007f (and any unit above ffff,
which cannot occur in a UTF-16 string) pass through unchanged. -/
def encodeJsonHttpHeader (units : List Nat) : List Nat :=
  units.flatMap fun c => if 0x7f ≤ c ∧ c ≤ 0xffff then escapeUnit c else [c]

end StorageDropbox

/-- A lowercase hex digit code unit: 0-9 or a-f. -/
def IsLowerHexDigitUnit (d : Nat) : Prop :=
  (48 ≤ d ∧ d ≤ 57) ∨ (97 ≤ d ∧ d ≤ 102)

/-- The numeric value of a big-endian string of hex digit code units. -/
def hexVal (ds : List Nat) : Nat :=
  ds.foldl (fun a d => 16 * a + (if 97 ≤ d then d - 87 else d - 48)) 0

/-- Helper: the fuel loop computes the recursive hex digits. -/
theorem hexUnitsCore_eq :
    ∀ (fuel n : Nat) (acc : List Nat), n < fuel →
      hexUnitsCore fuel n acc = hexUnitsRec n ++ acc := by
  intro fuel
  induction fuel with
  | zero => intro n acc h; omega
  | succ fuel ih =>
      intro n acc h
      by_cases h16 : n < 16
      · rw [hexUnitsCore, if_pos h16, hexUnitsRec, if_pos h16]
        rfl
      · rw [hexUnitsCore, if_neg h16]
        rw [ih (n / 16) _ (by
          have : n / 16 < n := Nat.div_lt_self (by omega) (by omega)
          omega)]
        conv_rhs => rw [hexUnitsRec, if_neg h16]
        rw [List.append_assoc]
        rfl

/-- Helper: hexUnits agrees with the recursive characterization. -/
theorem hexUnits_eq (n : Nat) : hexUnits n = hexUnitsRec n := by
  rw [hexUnits, hexUnitsCore_eq (n + 1) n [] (by omega), List.append_nil]

/-- Helper: a digit of a value below 16 is a lowercase hex digit unit. -/
theorem toHexDigitUnit_range (m : Nat) (h : m < 16) :
    IsLowerHexDigitUnit (toHexDigitUnit m) := by
  unfold toHexDigitUnit IsLowerHexDigitUnit
  by_cases h10 : m < 10
  · rw [if_pos h10]; omega
  · rw [if_neg h10]; omega

/-- Helper: every hex digit emitted for n is a lowercase hex digit unit. -/
theorem hexUnitsRec_range (n : Nat) :
    ∀ d ∈ hexUnitsRec n, IsLowerHexDigitUnit d := by
  induction n using hexUnitsRec.induct with
  | case1 n h =>
      rw [hexUnitsRec, if_pos h]
      intro d hd
      rw [List.mem_singleton] at hd
      subst hd
      exact toHexDigitUnit_range n h
  | case2 n h ih =>
      rw [hexUnitsRec, if_neg h]
      intro d hd
      rcases List.mem_append.mp hd with hd | hd
      · exact ih d hd
      · rw [List.mem_singleton] at hd
        subst hd
        exact toHexDigitUnit_range _ (Nat.mod_lt _ (by omega))

/-- Helper: at most k hex digits are emitted for n below 16 ^ k. -/
theorem hexUnitsRec_length : ∀ (k n : Nat), n < 16 ^ (k + 1) →
    (hexUnitsRec n).length ≤ k + 1 := by
  intro k
  induction k with
  | zero =>
      intro n h
      rw [hexUnitsRec, if_pos (by simpa using h)]
      simp
  | succ k ih =>
      intro n h
      by_cases h16 : n < 16
      · rw [hexUnitsRec, if_pos h16]
        simp only [List.length_singleton]
        omega
      · rw [hexUnitsRec, if_neg h16]
        have hdiv : n / 16 < 16 ^ (k + 1) := by
          rw [Nat.div_lt_iff_lt_mul (by omega)]
          calc n < 16 ^ (k + 2) := h
          _ = 16 ^ (k + 1) * 16 := by ring
        have := ih (n / 16) hdiv
        simp only [List.length_append, List.length_singleton]
        omega

/-- Helper: at least one digit is emitted. -/
theorem hexUnitsRec_ne_nil (n : Nat) : hexUnitsRec n ≠ [] := by
  by_cases h16 : n < 16
  · rw [hexUnitsRec, if_pos h16]; simp
  · rw [hexUnitsRec, if_neg h16]; simp

/-- Helper: the digit folding step undoes toHexDigitUnit. -/
theorem hexVal_digit (a m : Nat) (h : m < 16) :
    16 * a + (if 97 ≤ toHexDigitUnit m then toHexDigitUnit m - 87
              else toHexDigitUnit m - 48) = 16 * a + m := by
  unfold toHexDigitUnit
  by_cases h10 : m < 10
  · rw [if_pos h10, if_neg (by omega)]
    omega
  · rw [if_neg h10, if_pos (by omega)]
    omega

/-- Helper: folding from any accumulator parses the digits of n back. -/
theorem hexVal_foldl_hexUnitsRec : ∀ (n a : Nat),
    (hexUnitsRec n).foldl (fun a d => 16 * a + (if 97 ≤ d then d - 87 else d - 48)) a =
      16 ^ (hexUnitsRec n).length * a + n := by
  intro n
  induction n using hexUnitsRec.induct with
  | case1 n h =>
      intro a
      rw [hexUnitsRec, if_pos h]
      simp only [List.foldl_cons, List.foldl_nil, List.length_singleton]
      rw [hexVal_digit a n h]
      ring
  | case2 n h ih =>
      intro a
      have hmod : 16 * (n / 16) + n % 16 = n := Nat.div_add_mod n 16
      rw [hexUnitsRec, if_neg h]
      rw [List.foldl_append]
      rw [ih a]
      simp only [List.foldl_cons, List.foldl_nil, List.length_append,
        List.length_singleton]
      rw [hexVal_digit _ _ (Nat.mod_lt _ (by omega))]
      calc 16 * (16 ^ (hexUnitsRec (n / 16)).length * a + n / 16) + n % 16
          = 16 ^ ((hexUnitsRec (n / 16)).length + 1) * a + (16 * (n / 16) + n % 16) := by
            ring
        _ = 16 ^ ((hexUnitsRec (n / 16)).length + 1) * a + n := by rw [hmod]

/-- Helper: hexVal parses hexUnitsRec back to n. -/
theorem hexVal_hexUnitsRec (n : Nat) : hexVal (hexUnitsRec n) = n := by
  rw [hexVal, hexVal_foldl_hexUnitsRec n 0]
  ring

/-- Helper: leading zero digits do not change the parsed value. -/
theorem hexVal_replicate_zero (k : Nat) (l : List Nat) :
    hexVal (List.replicate k 48 ++ l) = hexVal l := by
  induction k with
  | zero => rfl
  | succ k ih =>
      rw [List.replicate_succ, List.cons_append]
      show hexVal (List.replicate k 48 ++ l) = hexVal l
      exact ih

/-- Helper: the slice(-4) of the zero-padded digit string. -/
theorem drop_pad_eq (h : List Nat) (L : Nat) (hlen : h.length = L)
    (h1 : 1 ≤ L) (h4 : L ≤ 4) :
    ([48, 48, 48] ++ h).drop (([48, 48, 48] ++ h).length - 4) =
      List.replicate (4 - L) 48 ++ h := by
  have hd : ([48, 48, 48] ++ h).length - 4 = L - 1 := by
    simp [hlen]
  rw [hd]
  interval_cases L
  · rfl
  · rfl
  · rfl
  · rfl

/-- Helper: the escape of a unit in the range 007f-ffff is a backslash, a
u, and exactly four lowercase hex digits whose value is the unit. -/
theorem escapeUnit_spec (c : Nat) (h1 : 0x7f ≤ c) (h2 : c ≤ 0xffff) :
    ∃ ds, StorageDropbox.escapeUnit c = [92, 117] ++ ds ∧ ds.length = 4 ∧
      (∀ d ∈ ds, IsLowerHexDigitUnit d) ∧ hexVal ds = c := by
  have hL4 : (hexUnitsRec c).length ≤ 4 := by
    have := hexUnitsRec_length 3 c (by omega)
    omega
  have hL1 : 1 ≤ (hexUnitsRec c).length := by
    have hne := hexUnitsRec_ne_nil c
    rcases hx : hexUnitsRec c with _ | ⟨d, t⟩
    · exact absurd hx hne
    · simp
  refine ⟨List.replicate (4 - (hexUnitsRec c).length) 48 ++ hexUnitsRec c, ?_, ?_, ?_, ?_⟩
  · unfold StorageDropbox.escapeUnit
    rw [hexUnits_eq]
    exact congrArg ([92, 117] ++ ·)
      (drop_pad_eq (hexUnitsRec c) (hexUnitsRec c).length rfl hL1 hL4)
  · simp only [List.length_append, List.length_replicate]
    omega
  · intro d hd
    rcases List.mem_append.mp hd with hd | hd
    · rw [List.eq_of_mem_replicate hd]
      exact Or.inl (by omega)
    · exact hexUnitsRec_range c d hd
  · rw [hexVal_replicate_zero, hexVal_hexUnitsRec]

/-- C6: the Dropbox-API-Arg header encoding replaces exactly the code units
at or above 007f by their backslash-u escapes (four lowercase hex digits
whose value is the escaped unit) and passes lower units through unchanged;
on input units from a JSON-serialized string (hence at or above 0020, and
valid UTF-16 units) the output is printable ASCII throughout. -/
theorem encodeJsonHttpHeader_ascii (units : List Nat)
    (hu : ∀ c ∈ units, 0x20 ≤ c ∧ c ≤ 0xffff) :
    StorageDropbox.encodeJsonHttpHeader units =
      units.flatMap (fun c => if 0x7f ≤ c then StorageDropbox.escapeUnit c else [c])
    ∧ (∀ d ∈ StorageDropbox.encodeJsonHttpHeader units, 0x20 ≤ d ∧ d < 0x7f)
    ∧ (∀ c ∈ units, 0x7f ≤ c →
        ∃ ds, StorageDropbox.escapeUnit c = [92, 117] ++ ds ∧ ds.length = 4 ∧
          (∀ d ∈ ds, IsLowerHexDigitUnit d) ∧ hexVal ds = c) := by
  refine ⟨?_, ?_, ?_⟩
  · induction units with
    | nil => rfl
    | cons c rest ih =>
        have hc := hu c (List.mem_cons_self c rest)
        have hrest : ∀ x ∈ rest, 0x20 ≤ x ∧ x ≤ 0xffff :=
          fun x hx => hu x (List.mem_cons_of_mem c hx)
        simp only [StorageDropbox.encodeJsonHttpHeader, List.flatMap_cons] at ih ⊢
        rw [ih hrest]
        congr 1
        by_cases h7f : 0x7f ≤ c
        · rw [if_pos ⟨h7f, hc.2⟩, if_pos h7f]
        · rw [if_neg (fun hand => h7f hand.1), if_neg h7f]
  · intro d hd
    unfold StorageDropbox.encodeJsonHttpHeader at hd
    rcases List.mem_flatMap.mp hd with ⟨c, hc, hdc⟩
    have hcu := hu c hc
    by_cases h7f : 0x7f ≤ c
    · rw [if_pos ⟨h7f, hcu.2⟩] at hdc
      obtain ⟨ds, hds, _, hrange, _⟩ := escapeUnit_spec c h7f hcu.2
      rw [hds] at hdc
      rcases List.mem_append.mp hdc with hdc | hdc
      · have hor : d = 92 ∨ d = 117 := by simpa using hdc
        rcases hor with rfl | rfl <;> omega
      · rcases hrange d hdc with hr | hr <;> omega
    · rw [if_neg (fun hand => h7f hand.1)] at hdc
      have hor : d = c := by simpa using hdc
      subst hor
      omega
  · intro c hc h7f
    exact escapeUnit_spec c h7f (hu c hc).2

/-- Witness for C6: a space passes through, the unit 00e9 becomes the
six-unit escape backslash-u-0-0-e-9, and the whole output is printable
ASCII. -/
theorem encodeJsonHttpHeader_ascii_witness :
    StorageDropbox.encodeJsonHttpHeader [32, 233] = [32, 92, 117, 48, 48, 101, 57]
    ∧ (∀ d ∈ StorageDropbox.encodeJsonHttpHeader [32, 233], 0x20 ≤ d ∧ d < 0x7f) := by
  have h := encodeJsonHttpHeader_ascii [32, 233] (by decide)
  exact ⟨by decide, h.2.1⟩

/-- Modelled from the spec: one entry of a password file (models/file is
not under src/): entries carry an optional tags array. -/
structure FileEntry where
  tags : Option (List Str)

/-- Modelled from the spec: the tag-relevant slice of a password file; its
entries are those returned by entriesMatching with an empty filter. -/
structure WFile where
  entries : List FileEntry

/-- JS string comparison as used by the default Array.prototype.sort
comparator: lexicographic over code units. -/
def strLe : Str → Str → Bool
  | [], _ => true
  | _ :: _, [] => false
  | a :: as, b :: bs =>
      if a.toNat < b.toNat then true
      else if b.toNat < a.toNat then false
      else strLe as bs

/-- Insertion into a sorted list; together with sortTags this models the
in-place newTags.sort() call (only the resulting order matters). -/
def insertTag (t : Str) : List Str → List Str
  | [] => [t]
  | x :: xs => if strLe t x then t :: x :: xs else x :: insertTag t xs

/-- The sort applied to the collected tags. -/
def sortTags (l : List Str) : List Str :=
  l.foldr insertTag []

namespace Workspace

/-- The JS Set-accumulation of Workspace.getTags: append a tag unless an
identical one was already collected (insertion order preserved). -/
def addUnique (acc : List Str) (t : Str) : List Str :=
  if t ∈ acc then acc else acc ++ [t]

/-- Workspace.getTags (Workspace source lines 140-150): the tags of every
entry of the file, first occurrences in encounter order (a JS Set iterates
in insertion order); an absent tags field contributes nothing. -/
def getTags (f : WFile) : List Str :=
  f.entries.foldl (fun acc e =>
    match e.tags with
    | some ts => ts.foldl addUnique acc
    | none => acc) []

/-- One step of the case-insensitive first-occurrence collection of
Workspace.updateTags (lines 120-131): the first component is newTags, the
second the lowercased tags already taken (the JS Set tagSetLower). -/
def dedupStep (p : List Str × List Str) (t : Str) : List Str × List Str :=
  if strToLower t ∈ p.2 then p else (p.1 ++ [t], p.2 ++ [strToLower t])

/-- The unsorted newTags array built by Workspace.updateTags from the tags
of all open files in encounter order. -/
def collectNewTags (files : List WFile) : List Str :=
  ((files.flatMap getTags).foldl dedupStep ([], [])).1

/-- join(',') as used for the change comparison. -/
def joinComma (l : List Str) : Str :=
  List.intercalate [','] l

/-- Workspace.updateTags (lines 120-138): sort the collected tags, compare
the comma-joins, and only on a difference store the new array and fire the
tags-changed notification.  Returns the resulting public tags array and
whether the notification fired. -/
def updateTags (files : List WFile) (oldTags : List Str) : List Str × Bool :=
  let newTags := sortTags (collectNewTags files)
  if joinComma oldTags ≠ joinComma newTags then (newTags, true) else (oldTags, false)

end Workspace

/-- Helper: strLe is total. -/
theorem strLe_total : ∀ a b : Str, strLe a b = true ∨ strLe b a = true := by
  intro a
  induction a with
  | nil => intro b; left; rfl
  | cons x xs ih =>
      intro b
      cases b with
      | nil => right; rfl
      | cons y ys =>
          by_cases hxy : x.toNat < y.toNat
          · left
            rw [strLe, if_pos hxy]
          · by_cases hyx : y.toNat < x.toNat
            · right
              rw [strLe, if_pos hyx]
            · rcases ih ys with h | h
              · left
                rw [strLe, if_neg hxy, if_neg hyx]
                exact h
              · right
                rw [strLe, if_neg hyx, if_neg hxy]
                exact h

/-- Helper: strLe is transitive. -/
theorem strLe_trans : ∀ a b c : Str,
    strLe a b = true → strLe b c = true → strLe a c = true := by
  intro a
  induction a with
  | nil => intro b c _ _; rfl
  | cons x xs ih =>
      intro b c hab hbc
      cases b with
      | nil => exact absurd hab (by rw [strLe]; simp)
      | cons y ys =>
          cases c with
          | nil => exact absurd hbc (by rw [strLe]; simp)
          | cons z zs =>
              rw [strLe] at hab hbc ⊢
              split_ifs at hab hbc ⊢ with h1 h2 h3 h4 h5 h6
              all_goals try rfl
              all_goals try omega
              all_goals exact ih ys zs hab hbc

/-- Helper: insertion produces a permutation of the cons. -/
theorem insertTag_perm (t : Str) : ∀ l : List Str, (insertTag t l).Perm (t :: l) := by
  intro l
  induction l with
  | nil => exact List.Perm.refl _
  | cons x xs ih =>
      rw [insertTag]
      by_cases h : strLe t x = true
      · rw [if_pos h]
      · rw [if_neg h]
        exact List.Perm.trans (List.Perm.cons x ih) (List.Perm.swap t x xs)

/-- Helper: insertion preserves sortedness. -/
theorem pairwise_insertTag (t : Str) : ∀ l : List Str,
    List.Pairwise (fun a b => strLe a b = true) l →
    List.Pairwise (fun a b => strLe a b = true) (insertTag t l) := by
  intro l
  induction l with
  | nil => intro _; exact List.pairwise_singleton _ t
  | cons x xs ih =>
      intro hp
      rcases List.pairwise_cons.mp hp with ⟨hx, hxs⟩
      rw [insertTag]
      by_cases h : strLe t x = true
      · rw [if_pos h]
        refine List.pairwise_cons.mpr ⟨?_, hp⟩
        intro y hy
        rcases List.mem_cons.mp hy with rfl | hy
        · exact h
        · exact strLe_trans t x y h (hx y hy)
      · rw [if_neg h]
        refine List.pairwise_cons.mpr ⟨?_, ih hxs⟩
        intro y hy
        rcases List.mem_cons.mp ((insertTag_perm t xs).mem_iff.mp hy) with rfl | hy2
        · rcases strLe_total x y with hxy | hyx
          · exact hxy
          · exact absurd hyx h
        · exact hx y hy2

/-- Helper: sortTags permutes its input. -/
theorem sortTags_perm : ∀ l : List Str, (sortTags l).Perm l := by
  intro l
  induction l with
  | nil => exact List.Perm.refl _
  | cons x xs ih =>
      exact (insertTag_perm x (sortTags xs)).trans (List.Perm.cons x ih)

/-- Helper: sortTags sorts. -/
theorem sortTags_sorted : ∀ l : List Str,
    List.Pairwise (fun a b => strLe a b = true) (sortTags l) := by
  intro l
  induction l with
  | nil => exact List.Pairwise.nil
  | cons x xs ih => exact pairwise_insertTag x (sortTags xs) ih

/-- Helper: unfolding of dedupStep when the lowercased tag was taken. -/
theorem dedupStep_seen (acc seen : List Str) (t : Str) (h : strToLower t ∈ seen) :
    Workspace.dedupStep (acc, seen) t = (acc, seen) := by
  simp [Workspace.dedupStep, h]

/-- Helper: unfolding of dedupStep on a fresh lowercased tag. -/
theorem dedupStep_new (acc seen : List Str) (t : Str) (h : strToLower t ∉ seen) :
    Workspace.dedupStep (acc, seen) t = (acc ++ [t], seen ++ [strToLower t]) := by
  simp [Workspace.dedupStep, h]

/-- Helper: invariant of the updateTags collection fold: every collected
tag comes from the input (or the accumulator), case-insensitive
distinctness is preserved, and every newly collected tag is the first
occurrence of its lowercase form. -/
theorem dedup_fold (l : List Str) : ∀ acc seen : List Str,
    seen = acc.map strToLower →
    (∀ t ∈ (l.foldl Workspace.dedupStep (acc, seen)).1, t ∈ acc ∨ t ∈ l)
    ∧ (List.Pairwise (fun a b => strToLower a ≠ strToLower b) acc →
        List.Pairwise (fun a b => strToLower a ≠ strToLower b)
          (l.foldl Workspace.dedupStep (acc, seen)).1)
    ∧ (∀ t ∈ (l.foldl Workspace.dedupStep (acc, seen)).1, t ∉ acc →
        strToLower t ∉ seen ∧
        l.find? (fun u => decide (strToLower u = strToLower t)) = some t) := by
  induction l with
  | nil =>
      intro acc seen hseen
      exact ⟨fun t ht => Or.inl ht, fun h => h, fun t ht hnot => absurd ht hnot⟩
  | cons x xs ih =>
      intro acc seen hseen
      rw [List.foldl_cons]
      by_cases hx : strToLower x ∈ seen
      · rw [dedupStep_seen acc seen x hx]
        obtain ⟨ih1, ih2, ih3⟩ := ih acc seen hseen
        refine ⟨?_, ih2, ?_⟩
        · intro t ht
          rcases ih1 t ht with h | h
          · exact Or.inl h
          · exact Or.inr (List.mem_cons_of_mem x h)
        · intro t ht hnot
          obtain ⟨hseen2, hfind⟩ := ih3 t ht hnot
          refine ⟨hseen2, ?_⟩
          rw [List.find?_cons_of_neg]
          · exact hfind
          · simp only [decide_eq_true_eq]
            intro hEq
            rw [hEq] at hx
            exact hseen2 hx
      · rw [dedupStep_new acc seen x hx]
        have hseen1 : seen ++ [strToLower x] = (acc ++ [x]).map strToLower := by
          rw [List.map_append, hseen]
          rfl
        obtain ⟨ih1, ih2, ih3⟩ := ih (acc ++ [x]) (seen ++ [strToLower x]) hseen1
        refine ⟨?_, ?_, ?_⟩
        · intro t ht
          rcases ih1 t ht with h | h
          · rcases List.mem_append.mp h with h | h
            · exact Or.inl h
            · exact Or.inr (List.mem_cons.mpr (Or.inl (List.mem_singleton.mp h)))
          · exact Or.inr (List.mem_cons_of_mem x h)
        · intro hacc
          apply ih2
          rw [List.pairwise_append]
          refine ⟨hacc, List.pairwise_singleton _ x, ?_⟩
          intro a ha b hb
          rw [List.mem_singleton] at hb
          subst hb
          intro hEq
          apply hx
          rw [hseen, ← hEq]
          exact List.mem_map_of_mem strToLower ha
        · intro t ht hnot
          by_cases htx : t = x
          · subst htx
            refine ⟨hx, ?_⟩
            rw [List.find?_cons_of_pos]
            simp
          · have hnot1 : t ∉ acc ++ [x] := by
              intro hmem
              rcases List.mem_append.mp hmem with h | h
              · exact hnot h
              · exact htx (List.mem_singleton.mp h)
            obtain ⟨hseen2, hfind⟩ := ih3 t ht hnot1
            have hsx : strToLower t ∉ seen := fun hmem =>
              hseen2 (List.mem_append.mpr (Or.inl hmem))
            have hne : strToLower x ≠ strToLower t := by
              intro hEq
              apply hseen2
              refine List.mem_append.mpr (Or.inr ?_)
              rw [List.mem_singleton, hEq]
            refine ⟨hsx, ?_⟩
            rw [List.find?_cons_of_neg]
            · exact hfind
            · simp only [decide_eq_true_eq]
              exact fun h => hne h

/-- C10: after updateTags the public tags array is sorted (JS default sort
order) and case-insensitively duplicate-free, assuming the previous array
was (it always is: tags starts empty and is only ever assigned here); every
tag of the computed new array is the first tag, in file traversal order,
bearing its lowercase form (first-encountered casing kept); and the
tags-changed notification fires only when the stored array differs from the
previous one. -/
theorem updateTags_invariant (files : List WFile) (oldTags : List Str)
    (hsorted : List.Pairwise (fun a b => strLe a b = true) oldTags)
    (hdistinct : List.Pairwise (fun a b => strToLower a ≠ strToLower b) oldTags) :
    List.Pairwise (fun a b => strLe a b = true) (Workspace.updateTags files oldTags).1
    ∧ List.Pairwise (fun a b => strToLower a ≠ strToLower b)
        (Workspace.updateTags files oldTags).1
    ∧ (∀ t ∈ sortTags (Workspace.collectNewTags files),
        (files.flatMap Workspace.getTags).find?
          (fun u => decide (strToLower u = strToLower t)) = some t)
    ∧ ((Workspace.updateTags files oldTags).2 = true →
        (Workspace.updateTags files oldTags).1 ≠ oldTags) := by
  obtain ⟨d1, d2, d3⟩ :=
    dedup_fold (files.flatMap Workspace.getTags) [] [] rfl
  have hcol_pair : List.Pairwise (fun a b => strToLower a ≠ strToLower b)
      (Workspace.collectNewTags files) := d2 List.Pairwise.nil
  have hfind : ∀ t ∈ sortTags (Workspace.collectNewTags files),
      (files.flatMap Workspace.getTags).find?
        (fun u => decide (strToLower u = strToLower t)) = some t := by
    intro t ht
    have htc : t ∈ Workspace.collectNewTags files :=
      (sortTags_perm (Workspace.collectNewTags files)).mem_iff.mp ht
    exact (d3 t htc (List.not_mem_nil t)).2
  have hnew_pair : List.Pairwise (fun a b => strToLower a ≠ strToLower b)
      (sortTags (Workspace.collectNewTags files)) :=
    ((sortTags_perm (Workspace.collectNewTags files)).pairwise_iff
      (fun h => Ne.symm h)).mpr hcol_pair
  by_cases hch : Workspace.joinComma oldTags ≠
      Workspace.joinComma (sortTags (Workspace.collectNewTags files))
  · have hu : Workspace.updateTags files oldTags =
        (sortTags (Workspace.collectNewTags files), true) := by
      simp only [Workspace.updateTags]
      rw [if_pos hch]
    rw [hu]
    refine ⟨sortTags_sorted _, hnew_pair, hfind, ?_⟩
    intro _ heq
    exact hch (congrArg Workspace.joinComma heq).symm
  · have hu : Workspace.updateTags files oldTags = (oldTags, false) := by
      simp only [Workspace.updateTags]
      rw [if_neg hch]
    rw [hu]
    refine ⟨hsorted, hdistinct, hfind, ?_⟩
    intro h
    exact absurd h (by simp)

/-- Witness for C10 at one file holding tags b, A, a: the stored array is
the sorted, case-insensitively deduplicated [A, b] with first casings kept,
and the notification fired. -/
theorem updateTags_invariant_witness :
    Workspace.updateTags [⟨[⟨some ["b".toList, "A".toList, "a".toList]⟩]⟩] [] =
      (["A".toList, "b".toList], true)
    ∧ List.Pairwise (fun a b => strLe a b = true)
        (Workspace.updateTags [⟨[⟨some ["b".toList, "A".toList, "a".toList]⟩]⟩] []).1 := by
  have h := updateTags_invariant [⟨[⟨some ["b".toList, "A".toList, "a".toList]⟩]⟩] []
    List.Pairwise.nil List.Pairwise.nil
  exact ⟨by decide, h.1⟩

/-- No two adjacent slashes: the canonical-form invariant produced by
fixSlashes. -/
def noDupSlash : Str → Bool
  | [] => true
  | [_] => true
  | a :: b :: rest => !(a == '/' && b == '/') && noDupSlash (b :: rest)

/-- Helper: the valid-range builder of Char round-trips toNat. -/
theorem charOfNat_toNat (n : Nat) (h : n < 55296) : (Char.ofNat n).toNat = n := by
  have hv : n.isValidChar := Or.inl h
  simp [Char.ofNat, hv, Char.ofNatAux, Char.toNat, UInt32.toNat, BitVec.toNat_ofNatLt]

/-- Helper: only the slash lowercases to a slash. -/
theorem toLower_eq_slash (c : Char) (h : c.toLower = '/') : c = '/' := by
  unfold Char.toLower at h
  simp only at h
  by_cases hr : c.toNat ≥ 65 ∧ c.toNat ≤ 90
  · rw [if_pos hr] at h
    have hn : (Char.ofNat (c.toNat + 32)).toNat = c.toNat + 32 :=
      charOfNat_toNat _ (by omega)
    rw [h] at hn
    have h47 : ('/' : Char).toNat = 47 := by decide
    omega
  · rwa [if_neg hr] at h

/-- Helper: unfolding of noDupSlash on two cons cells. -/
theorem noDupSlash_cons_cons (a b : Char) (l : Str) :
    noDupSlash (a :: b :: l) = true ↔
      ¬(a = '/' ∧ b = '/') ∧ noDupSlash (b :: l) = true := by
  rw [noDupSlash]
  simp [Bool.and_eq_true, not_and]
  tauto

/-- Helper: the emit loop of fixSlashes is the identity on canonical
input. -/
theorem fixSlashesGo_id : ∀ (l : Str) (prev : Char),
    noDupSlash (prev :: l) = true → fixSlashesGo prev l = l := by
  intro l
  induction l with
  | nil => intro prev _; rfl
  | cons c rest ih =>
      intro prev h
      rcases (noDupSlash_cons_cons prev c rest).mp h with ⟨hpc, hcr⟩
      rw [fixSlashesGo, if_neg hpc]
      rw [ih c hcr]

/-- Helper: the emit loop of fixSlashes outputs canonical form. -/
theorem fixSlashesGo_noDup : ∀ (l : Str) (prev : Char),
    noDupSlash (prev :: fixSlashesGo prev l) = true := by
  intro l
  induction l with
  | nil => intro prev; rfl
  | cons c rest ih =>
      intro prev
      by_cases hpc : prev = '/' ∧ c = '/'
      · rw [fixSlashesGo, if_pos hpc]
        obtain ⟨hp, hc⟩ := hpc
        exact ih prev
      · rw [fixSlashesGo, if_neg hpc]
        exact (noDupSlash_cons_cons prev c (fixSlashesGo c rest)).mpr ⟨hpc, ih c⟩

/-- Helper: how the emit loop processes a canonical prefix followed by a
slash and an arbitrary remainder: the prefix is reproduced (its trailing
slash, if any, merging with the separator) and the remainder is normalized
after one slash. -/
theorem fixSlashesGo_append_slash (p : Str) : ∀ (r : Str) (prev : Char),
    noDupSlash (prev :: r) = true →
    fixSlashesGo prev (r ++ '/' :: p) =
      (if r = [] then
        (if prev = '/' then fixSlashesGo '/' p else '/' :: fixSlashesGo '/' p)
      else if r.getLast? = some '/' then
        r.dropLast ++ '/' :: fixSlashesGo '/' p
      else r ++ '/' :: fixSlashesGo '/' p) := by
  intro r
  induction r with
  | nil =>
      intro prev _
      rw [if_pos rfl, List.nil_append]
      by_cases hp : prev = '/'
      · rw [fixSlashesGo, if_pos ⟨hp, rfl⟩, if_pos hp, hp]
      · rw [fixSlashesGo, if_neg (fun hand => hp hand.1), if_neg hp]
  | cons c r2 ih =>
      intro prev h
      rcases (noDupSlash_cons_cons prev c _).mp h with ⟨hpc, hcr⟩
      rw [List.cons_append, fixSlashesGo, if_neg hpc, ih c hcr]
      rw [if_neg (List.cons_ne_nil c r2)]
      cases r2 with
      | nil =>
          rw [if_pos rfl]
          by_cases hc : c = '/'
          · subst hc
            rw [if_pos rfl]
            rfl
          · rw [if_neg hc]
            rw [if_neg (by simp [List.getLast?]; exact hc)]
            rfl
      | cons d r3 =>
          rw [if_neg (List.cons_ne_nil d r3)]
          rw [List.getLast?_cons_cons, List.dropLast_cons₂]
          by_cases hlast : (d :: r3).getLast? = some '/'
          · rw [if_pos hlast, if_pos hlast]
            rfl
          · rw [if_neg hlast, if_neg hlast]
            rfl

/-- Helper: indexOf finds an occurrence at the start. -/
theorem indexOfPos_of_prefix (hay sub : Str) (h : sub.isPrefixOf hay = true) :
    indexOfPos hay sub = some 0 := by
  cases hay with
  | nil => rw [indexOfPos, if_pos h]
  | cons a t => rw [indexOfPos, if_pos h]

/-- Helper: indexOf steps past a non-matching position. -/
theorem indexOfPos_cons_of_not_prefix (a : Char) (t sub : Str)
    (h : ¬ sub.isPrefixOf (a :: t) = true) :
    indexOfPos (a :: t) sub = (indexOfPos t sub).map (fun n => n + 1) := by
  rw [indexOfPos, if_neg h]

/-- Helper: the first occurrence is at index 1 when position 0 does not
match but position 1 does. -/
theorem jsIndexOf_eq_one (a : Char) (t sub : Str)
    (hnp : ¬ sub.isPrefixOf (a :: t) = true)
    (hp : sub.isPrefixOf t = true) :
    jsIndexOf (a :: t) sub = 1 := by
  rw [jsIndexOf, indexOfPos_cons_of_not_prefix a t sub hnp, indexOfPos_of_prefix t sub hp]
  rfl

/-- Helper: differing heads refute a prefix. -/
theorem not_isPrefixOf_of_head_ne (x y : Char) (xs ys : Str) (h : x ≠ y) :
    ¬ (x :: xs).isPrefixOf (y :: ys) = true := by
  simp [List.isPrefixOf, h]

/-- Helper: a slash followed by already-normalized output is stable. -/
theorem fixSlashes_slash_go (p : Str) :
    fixSlashes ('/' :: fixSlashesGo '/' p) = '/' :: fixSlashesGo '/' p := by
  rw [fixSlashes]
  rw [fixSlashesGo_id (fixSlashesGo '/' p) '/' (fixSlashesGo_noDup p '/')]

/-- Helper: a double slash before already-normalized output collapses. -/
theorem fixSlashes_slash_slash_go (p : Str) :
    fixSlashes ('/' :: '/' :: fixSlashesGo '/' p) = '/' :: fixSlashesGo '/' p := by
  rw [fixSlashes, fixSlashesGo, if_pos ⟨rfl, rfl⟩]
  rw [fixSlashesGo_id (fixSlashesGo '/' p) '/' (fixSlashesGo_noDup p '/')]

/-- Helper: the behaviour of toRelPath when the case-insensitive search
finds the root folder at index 1: strip the root folder and the separator,
then normalize with a leading slash. -/
theorem toRelPath_at_one (root path : Str) (hne : root ≠ [])
    (hidx : jsIndexOf (strToLower path) (strToLower root) = 1) :
    StorageDropbox.toRelPath root path =
      fixSlashes ('/' :: path.drop (root.length + 1)) := by
  rw [StorageDropbox.toRelPath, if_neg hne]
  simp only [hidx]
  norm_num

/-- Helper: in the lowercased full path, the root folder (whose first
character is not a slash) first occurs at index 1. -/
theorem jsIndexOf_root (c : Char) (r' t2 : Str) (hc : c ≠ '/') :
    jsIndexOf (strToLower (('/' :: (c :: r')) ++ t2)) (strToLower (c :: r')) = 1 := by
  have hsl : Char.toLower '/' = '/' := by decide
  have hlow : strToLower (('/' :: (c :: r')) ++ t2) =
      '/' :: (strToLower (c :: r') ++ strToLower t2) := by
    simp [strToLower, hsl]
  rw [hlow]
  apply jsIndexOf_eq_one
  · have hhead : Char.toLower c ≠ '/' := fun hEq => hc (toLower_eq_slash c hEq)
    rw [show strToLower (c :: r') = Char.toLower c :: strToLower r' from rfl]
    exact not_isPrefixOf_of_head_ne _ _ _ _ hhead
  · rw [List.isPrefixOf_iff_prefix]
    exact List.prefix_append _ _

/-- Helper: the general round trip, for a nonempty root folder in
canonical slash form: resolving a logical path to the backend and back
yields the slash-normalized logical path with a leading slash. -/
theorem toRelPath_toFullPath (r p : Str) (hne : r ≠ [])
    (hnd : noDupSlash ('/' :: r) = true) :
    StorageDropbox.toRelPath r (StorageDropbox.toFullPath r p) =
      fixSlashes ('/' :: p) := by
  obtain ⟨c, r', rfl⟩ : ∃ c r', r = c :: r' := by
    cases r with
    | nil => exact absurd rfl hne
    | cons c r' => exact ⟨c, r', rfl⟩
  have hc : c ≠ '/' := by
    rcases (noDupSlash_cons_cons '/' c r').mp hnd with ⟨h1, _⟩
    intro hEq
    exact h1 ⟨rfl, hEq⟩
  by_cases hlast : (c :: r').getLast? = some '/'
  · -- the configured folder ends with a slash, which merges with the
    -- separator
    have hsplit : c :: r' = (c :: r').dropLast ++ ['/'] :=
      Eq.symm (List.dropLast_append_getLast? '/' hlast)
    have hfull : StorageDropbox.toFullPath (c :: r') p =
        ('/' :: (c :: r')) ++ fixSlashesGo '/' p := by
      rw [StorageDropbox.toFullPath, if_neg hne, fixSlashes,
        fixSlashesGo_append_slash p (c :: r') '/' hnd,
        if_neg (List.cons_ne_nil c r'), if_pos hlast]
      rw [List.cons_append]
      have : (c :: r') ++ fixSlashesGo '/' p =
          (c :: r').dropLast ++ '/' :: fixSlashesGo '/' p := by
        conv_lhs => rw [hsplit]
        rw [List.append_assoc]
        rfl
      rw [this]
    rw [hfull]
    rw [toRelPath_at_one (c :: r') _ hne (jsIndexOf_root c r' (fixSlashesGo '/' p) hc)]
    have hdrop : (('/' :: (c :: r')) ++ fixSlashesGo '/' p).drop ((c :: r').length + 1) =
        fixSlashesGo '/' p := by
      have hlen : (c :: r').length + 1 = ('/' :: (c :: r')).length := by
        simp
      rw [hlen, List.drop_left]
    rw [hdrop, fixSlashes_slash_go, fixSlashes]
  · -- the configured folder does not end with a slash
    have hfull : StorageDropbox.toFullPath (c :: r') p =
        ('/' :: (c :: r')) ++ ('/' :: fixSlashesGo '/' p) := by
      rw [StorageDropbox.toFullPath, if_neg hne, fixSlashes,
        fixSlashesGo_append_slash p (c :: r') '/' hnd,
        if_neg (List.cons_ne_nil c r'), if_neg hlast]
      rfl
    rw [hfull]
    rw [toRelPath_at_one (c :: r') _ hne
      (jsIndexOf_root c r' ('/' :: fixSlashesGo '/' p) hc)]
    have hdrop : (('/' :: (c :: r')) ++ ('/' :: fixSlashesGo '/' p)).drop
        ((c :: r').length + 1) = '/' :: fixSlashesGo '/' p := by
      have hlen : (c :: r').length + 1 = ('/' :: (c :: r')).length := by
        simp
      rw [hlen, List.drop_left]
    rw [hdrop, fixSlashes_slash_slash_go, fixSlashes]

/-- C3 counterexample: with the reachable configured folder a//b (the
folder sanitizer strips only a leading slash and does not collapse internal
duplicate slashes), the round trip of the logical path x returns /a/b/x:
the root folder, whose duplicate slashes were collapsed inside the full
path, is never found by the case-insensitive search and is not stripped,
so the result is not the slash-normalized form /x of the logical path. -/
theorem path_roundtrip_counterexample :
    StorageDropbox.toRelPath "a//b".toList
        (StorageDropbox.toFullPath "a//b".toList "x".toList) = "/a/b/x".toList
    ∧ StorageDropbox.fixConfigFolder "a//b".toList = "a//b".toList
    ∧ fixSlashes ('/' :: "x".toList) = "/x".toList
    ∧ ("/a/b/x".toList : Str) ≠ "/x".toList := by
  refine ⟨by decide, by decide, by decide, by decide⟩

/-- C3 (amended): with root folder Vault, the logical path db.kdbx maps to
the backend path /Vault/db.kdbx, and the case-differing backend path
/vault/sub/db.kdbx maps back to /sub/db.kdbx; and for every logical path p
and every nonempty configured root folder r in canonical slash form (no
duplicate slashes and no leading slash, which internal duplicate slashes
would break), toRelPath (toFullPath p) is the slash-normalized form of p
with a leading slash, the root-folder prefix being matched
case-insensitively. -/
theorem path_roundtrip (r p : Str) :
    StorageDropbox.toFullPath "Vault".toList "db.kdbx".toList = "/Vault/db.kdbx".toList
    ∧ StorageDropbox.toRelPath "Vault".toList "/vault/sub/db.kdbx".toList =
      "/sub/db.kdbx".toList
    ∧ (r ≠ [] → noDupSlash ('/' :: r) = true →
        StorageDropbox.toRelPath r (StorageDropbox.toFullPath r p) =
          fixSlashes ('/' :: p)) := by
  refine ⟨by decide, by decide, fun hne hnd => toRelPath_toFullPath r p hne hnd⟩

/-- Witness for C3 (amended) at root folder Vault and logical path
db.kdbx. -/
theorem path_roundtrip_witness :
    StorageDropbox.toRelPath "Vault".toList
        (StorageDropbox.toFullPath "Vault".toList "db.kdbx".toList) =
      fixSlashes ('/' :: "db.kdbx".toList)
    ∧ fixSlashes ('/' :: "db.kdbx".toList) = "/db.kdbx".toList := by
  refine ⟨(path_roundtrip "Vault".toList "db.kdbx".toList).2.2 (by decide) (by decide),
    by decide⟩
